import Mathlib

/-! # Configuration registry, REST handler and image-name parser

A shallow embedding of `pkg/registry/configuration/rest.go`,
`pkg/registry/configuration/registry.go` and `pkg/util/parsers/parsers.go`.

* Go methods that touch the store become functions that take the store state and
  return the result together with the state after the call.
* `generic.Registry` is an interface in Go; here it is a structure of functions over
  an arbitrary state type, so the handler is translated once, for every registry.
* A Go `(value, error)` result is an `Except Error value`.
* A Go function that can panic on an index or a slice returns an `Option`, `none`
  being the panic.
-/

set_option autoImplicit false

namespace Kubernetes

/-! ## Data model -/

/-- The Go type `labels.Set`, a `map[string]string`; nil and empty maps are both `[]`. -/
abbrev LabelSet := List (String × String)

/-- The Go type `fields.Set`, a `map[string]string`. -/
abbrev FieldSet := List (String × String)

/-- Modelled from the spec: `api.ObjectMeta` is declared in `pkg/api`, outside the
sources at hand. The fields are the ones the handler reads or writes and the ones the
data model lists: name, namespace, resource version, labels, annotations, and the
creation metadata (UID, creation timestamp). -/
structure ObjectMeta where
  Name : String
  Namespace : String
  UID : String
  ResourceVersion : String
  CreationTimestamp : Nat
  Labels : LabelSet
  Annotations : List (String × String)
  deriving DecidableEq, Repr

/-- Modelled from the spec: `api.Configuration` is declared in `pkg/api`, outside the
sources at hand. It is the resource of the data model: object metadata plus the
kind-specific fields `Type` (written `Type_`, `Type` being reserved) and `Flags`.
`rest.go` also spells the type `api.Config` (in `Update` and `Get`), reads the same fields through it and hands objects read from
the registry back through it; the data model knows one Configuration kind, so both
spellings denote this structure. -/
structure Configuration where
  ObjectMeta : ObjectMeta
  Type_ : String
  Flags : List (String × String)
  deriving DecidableEq, Repr

/-- A `runtime.Object`: a Configuration, or an object of some other kind. -/
inductive Object where
  | configuration (c : Configuration)
  | other (kind : String)
  deriving DecidableEq, Repr

/-- One entry of an `errs.ValidationErrorList`. -/
structure ValidationError where
  Field : String
  Detail : String
  deriving DecidableEq, Repr

abbrev ValidationErrorList := List ValidationError

/-- The errors the handler and the registry return. `Errorf` is `fmt.Errorf` with its
format string and arguments; `Conflict` and `Invalid` are `errors.NewConflict` and
`errors.NewInvalid`; `NotFound` and `AlreadyExists` come from the registry. `Panic` is
not a returned error: it stands for the run-time panic of an unchecked type
assertion. -/
inductive Error where
  | Errorf (format : String) (args : List Object)
  | Conflict (kind name : String) (err : String)
  | Invalid (kind name : String) (errs : ValidationErrorList)
  | NotFound (kind name : String)
  | AlreadyExists (kind name : String)
  | Panic (what : String)
  deriving DecidableEq, Repr

/-- Modelled from the spec: `api.Context` is declared in `pkg/api`. It carries the
request namespace; in this model it also carries the clock reading and the fresh UID
that `FillObjectMetaSystemFields` draws during the call. -/
structure Context where
  Namespace : String
  Now : Nat
  NewUID : String
  deriving DecidableEq, Repr

/-- Modelled from the spec: `api.FillObjectMetaSystemFields` is declared in `pkg/api`.
It "fills system-managed fields (timestamps, UID)" of the metadata. -/
def FillObjectMetaSystemFields (ctx : Context) (m : ObjectMeta) : ObjectMeta :=
  { m with CreationTimestamp := ctx.Now, UID := ctx.NewUID }

/-- The interfaces `labels.Selector` and `fields.Selector` (declared in `pkg/labels` and
`pkg/fields`): a selector is its method `Matches` on a label set or field set. -/
structure Selector where
  Matches : List (String × String) → Bool

/-- The struct `generic.SelectionPredicate` as `rest.go` builds it (lines 151 and 155):
label selector, field selector and attribute-extraction function. -/
structure SelectionPredicate where
  Label : Selector
  Field : Selector
  GetAttrs : Object → Except Error (LabelSet × FieldSet)

/-- Modelled from the spec: `api.ConfigurationList` is declared in `pkg/api`. "An ordered
sequence of Resource plus the `ResourceVersion` at which the list snapshot was taken";
the generic registry fills it with the objects it read, as `runtime.Object`s. -/
structure ConfigurationList where
  ResourceVersion : String
  Items : List Object
  deriving DecidableEq, Repr

/-- The interface `generic.Registry` (declared in `pkg/registry/generic`), with the
store state passed explicitly. `Get` and `ListPredicate` read only; the writing methods
return the error (if any) and the state after the call. -/
structure Registry (σ : Type) where
  ListPredicate : Context → σ → SelectionPredicate → Except Error ConfigurationList
  CreateWithName : Context → σ → String → Object → Option Error × σ
  UpdateWithName : Context → σ → String → Object → Option Error × σ
  Get : Context → σ → String → Except Error Object
  Delete : Context → σ → String → Except Error Object × σ

/-- The struct `REST` of `rest.go`. -/
structure REST (σ : Type) where
  registry : Registry σ

/-- `NewStorage` of `rest.go`. -/
def NewStorage {σ : Type} (registry : Registry σ) : REST σ :=
  { registry := registry }

/-! ## The REST handler (`rest.go`) -/

section Handler

variable {σ : Type}

/-- `REST.Create` (`rest.go`, lines 53-77). `ValidateConfiguration` is
`validation.ValidateConfiguration`, declared outside the sources at hand and taken as a
parameter. The three-valued `return nil, false, errors.NewConflict(...)` of lines 60
and 64 is read as returning that error. -/
def REST.Create (rs : REST σ) (ValidateConfiguration : Configuration → ValidationErrorList)
    (ctx : Context) (s : σ) (obj : Object) : Except Error Object × σ :=
  match obj with
  | .configuration config =>
    if config.ObjectMeta.Namespace ≠ "" then
      (.error (.Conflict "configuration" config.ObjectMeta.Namespace
        "Configuration objects should not have a namespace."), s)
    else if config.ObjectMeta.Name.length = 0 then
      (.error (.Conflict "configuration" config.ObjectMeta.Name
        "Configuration objects must have a name."), s)
    else
      let errs := ValidateConfiguration config
      if errs.length > 0 then
        (.error (.Invalid "configuration" config.ObjectMeta.Name errs), s)
      else
        let config := { config with ObjectMeta := FillObjectMetaSystemFields ctx config.ObjectMeta }
        match rs.registry.CreateWithName ctx s config.ObjectMeta.Name (.configuration config) with
        | (some err, s') => (.error err, s')
        | (none, s') => (rs.registry.Get ctx s' config.ObjectMeta.Name, s')
  | _ => (.error (.Errorf "invalid object type" []), s)

/-- The assignments of `rest.go` lines 97-100: the editable fields of the incoming
object are set on the object read from the registry. -/
def setEditableFields (editConfig config : Configuration) : Configuration :=
  let editConfig := { editConfig with
    ObjectMeta := { editConfig.ObjectMeta with Labels := config.ObjectMeta.Labels } }
  let editConfig := { editConfig with
    ObjectMeta := { editConfig.ObjectMeta with ResourceVersion := config.ObjectMeta.ResourceVersion } }
  let editConfig := { editConfig with
    ObjectMeta := { editConfig.ObjectMeta with Annotations := config.ObjectMeta.Annotations } }
  { editConfig with Flags := config.Flags }

/-- `REST.Update` (`rest.go`, lines 79-112). The checked assertion of line 80 is
spelled `obj.(*api.Config)`, the Configuration kind (see `Configuration`). The unchecked
assertion `oldObj.(*api.Configuration)` of line 94 panics on an object of another
kind. -/
def REST.Update (rs : REST σ) (ValidateConfiguration : Configuration → ValidationErrorList)
    (ctx : Context) (s : σ) (obj : Object) : Except Error (Object × Bool) × σ :=
  match obj with
  | .configuration config =>
    if config.ObjectMeta.Namespace ≠ "" then
      (.error (.Conflict "configuration" config.ObjectMeta.Namespace
        "Configuration objects should not have a namespace."), s)
    else
      match rs.registry.Get ctx s config.ObjectMeta.Name with
      | .error err => (.error err, s)
      | .ok (.configuration editConfig) =>
        let editConfig := setEditableFields editConfig config
        let errs := ValidateConfiguration editConfig
        if errs.length > 0 then
          (.error (.Invalid "configuration" editConfig.ObjectMeta.Name errs), s)
        else
          match rs.registry.UpdateWithName ctx s editConfig.ObjectMeta.Name
              (.configuration editConfig) with
          | (some err, s') => (.error err, s')
          | (none, s') =>
            match rs.registry.Get ctx s' editConfig.ObjectMeta.Name with
            | .ok out => (.ok (out, false), s')
            | .error err => (.error err, s')
      | .ok _ => (.error (.Panic "interface conversion: not *api.Configuration"), s)
  | _ => (.error (.Errorf "invalid configuration object: %#v" [obj]), s)

/-- `REST.Delete` (`rest.go`, lines 114-125). -/
def REST.Delete (rs : REST σ) (ctx : Context) (s : σ) (name : String) :
    Except Error Object × σ :=
  match rs.registry.Get ctx s name with
  | .error err => (.error err, s)
  | .ok (.configuration _) => rs.registry.Delete ctx s name
  | .ok _ => (.error (.Errorf "invalid object type" []), s)

/-- `REST.Get` (`rest.go`, lines 127-137). The assertion of line 132 is spelled
`obj.(*api.Config)`, the Configuration kind (see `Configuration`). -/
def REST.Get (rs : REST σ) (ctx : Context) (s : σ) (name : String) : Except Error Object :=
  match rs.registry.Get ctx s name with
  | .error err => .error err
  | .ok (.configuration config) => .ok (.configuration config)
  | .ok _ => .error (.Errorf "invalid object type" [])

/-- `REST.getAttrs` (`rest.go`, lines 139-148): the label set is the literal
`labels.Set{}`, the field set is `fields.Set{"type": string(config.Type_)}`. -/
def REST.getAttrs (_rs : REST σ) (obj : Object) : Except Error (LabelSet × FieldSet) :=
  match obj with
  | .configuration config => .ok ([], [("type", config.Type_)])
  | _ => .error (.Errorf "invalid object type" [])

/-- `REST.List` (`rest.go`, lines 150-152). -/
def REST.List (rs : REST σ) (ctx : Context) (s : σ) (label : Selector) (field : Selector) :
    Except Error ConfigurationList :=
  rs.registry.ListPredicate ctx s { Label := label, Field := field, GetAttrs := rs.getAttrs }

end Handler

/-! ## The registry (`registry.go`) -/

/-- Modelled from the spec: `etcdgeneric.NamespaceKeyRootFunc` is declared in
`pkg/registry/generic/etcd`. "List/watch operate over the `/registry/configurations/`
prefix": the key root is the given root, with no namespace segment. -/
def NamespaceKeyRootFunc (_ctx : Context) (root : String) : String :=
  root

/-- Modelled from the spec: `etcdgeneric.NamespaceKeyFunc` is declared in
`pkg/registry/generic/etcd`. "Each resource stored at key
`/registry/configurations/{name}` (cluster-scoped; no namespace segment)". -/
def NamespaceKeyFunc (ctx : Context) (root : String) (name : String) : Except Error String :=
  .ok (NamespaceKeyRootFunc ctx root ++ "/" ++ name)

/-- One key of the store: the serialized object and the store revision of its last
write. -/
structure Node where
  Key : String
  Value : Object
  ModifiedIndex : Nat
  deriving DecidableEq, Repr

/-- The contents of the key-value store behind a `tools.EtcdHelper`: its keys and its
current revision. -/
structure EtcdStore where
  Nodes : List Node
  Index : Nat
  deriving DecidableEq, Repr

/-- The fields of `etcdgeneric.Etcd` that `NewEtcdRegistry` sets; `Helper` is the store,
passed explicitly to each method. -/
structure Etcd where
  NewFunc : Unit → Object
  EndpointName : String
  KeyRootFunc : Context → String
  KeyFunc : Context → String → Except Error String

/-- The object with its `ResourceVersion` set: the data model's "opaque monotonically
increasing store revision". -/
def Object.withResourceVersion (obj : Object) (v : String) : Object :=
  match obj with
  | .configuration c =>
    .configuration { c with ObjectMeta := { c.ObjectMeta with ResourceVersion := v } }
  | .other k => .other k

/-- The node stored at a key, if any. -/
def EtcdStore.lookup (s : EtcdStore) (key : String) : Option Node :=
  s.Nodes.find? (fun n => n.Key == key)

/-- Modelled from the spec: `Etcd.Get` is declared in `pkg/registry/generic/etcd`.
"Fails with `NotFound` if the key is absent; otherwise returns the deserialized
object"; the object carries the store revision of its key as its `ResourceVersion`. -/
def Etcd.Get (e : Etcd) (ctx : Context) (s : EtcdStore) (name : String) :
    Except Error Object :=
  match e.KeyFunc ctx name with
  | .error err => .error err
  | .ok key =>
    match s.lookup key with
    | none => .error (.NotFound e.EndpointName name)
    | some n => .ok (n.Value.withResourceVersion (toString n.ModifiedIndex))

/-- The store after a new key is written: the node is added at the next revision. -/
def EtcdStore.create (s : EtcdStore) (key : String) (obj : Object) : EtcdStore :=
  { Nodes := s.Nodes ++ [{ Key := key, Value := obj, ModifiedIndex := s.Index + 1 }],
    Index := s.Index + 1 }

/-- The store after the value at a key is overwritten, at the next revision. -/
def EtcdStore.set (s : EtcdStore) (key : String) (obj : Object) : EtcdStore :=
  { Nodes := s.Nodes.map (fun n =>
      if n.Key == key then { Key := key, Value := obj, ModifiedIndex := s.Index + 1 } else n),
    Index := s.Index + 1 }

/-- The store after a key is removed, at the next revision. -/
def EtcdStore.delete (s : EtcdStore) (key : String) : EtcdStore :=
  { Nodes := s.Nodes.filter (fun n => !(n.Key == key)), Index := s.Index + 1 }

/-- Modelled from the spec: `Etcd.CreateWithName` is declared in
`pkg/registry/generic/etcd`. "Fails with `AlreadyExists` if the derived key exists;
otherwise serializes `obj` and stores it at the derived key." -/
def Etcd.CreateWithName (e : Etcd) (ctx : Context) (s : EtcdStore) (name : String)
    (obj : Object) : Option Error × EtcdStore :=
  match e.KeyFunc ctx name with
  | .error err => (some err, s)
  | .ok key =>
    match s.lookup key with
    | some _ => (some (.AlreadyExists e.EndpointName name), s)
    | none => (none, s.create key obj)

/-- Modelled from the spec: `Etcd.UpdateWithName` is declared in
`pkg/registry/generic/etcd`. "Fails with `NotFound` if absent; overwrites the value at
the key." -/
def Etcd.UpdateWithName (e : Etcd) (ctx : Context) (s : EtcdStore) (name : String)
    (obj : Object) : Option Error × EtcdStore :=
  match e.KeyFunc ctx name with
  | .error err => (some err, s)
  | .ok key =>
    match s.lookup key with
    | none => (some (.NotFound e.EndpointName name), s)
    | some _ => (none, s.set key obj)

/-- Modelled from the spec: `Etcd.Delete` is declared in `pkg/registry/generic/etcd`.
"Fails with `NotFound` if absent; removes the key and returns the last value." -/
def Etcd.Delete (e : Etcd) (ctx : Context) (s : EtcdStore) (name : String) :
    Except Error Object × EtcdStore :=
  match e.KeyFunc ctx name with
  | .error err => (.error err, s)
  | .ok key =>
    match s.lookup key with
    | none => (.error (.NotFound e.EndpointName name), s)
    | some n => (.ok (n.Value.withResourceVersion (toString n.ModifiedIndex)), s.delete key)

/-- Modelled from the spec: `SelectionPredicate.Matches` is declared in
`pkg/registry/generic`. "A resource matches iff both selectors match their respective
extracted sets"; an error of the extraction function is returned. -/
def SelectionPredicate.Matches (p : SelectionPredicate) (obj : Object) : Except Error Bool :=
  match p.GetAttrs obj with
  | .error err => .error err
  | .ok (objLabels, objFields) => .ok (p.Label.Matches objLabels && p.Field.Matches objFields)

/-- Modelled from the spec: `generic.FilterList` is declared in `pkg/registry/generic`.
The objects of a list that the predicate matches, in order; the first error of the
predicate is returned. -/
def FilterList (p : SelectionPredicate) : List Object → Except Error (List Object)
  | [] => .ok []
  | obj :: rest =>
    match p.Matches obj with
    | .error err => .error err
    | .ok ok =>
      match FilterList p rest with
      | .error err => .error err
      | .ok items => .ok (if ok then obj :: items else items)

/-- The objects stored under a key root, each as `Get` reads it, in store order. -/
def EtcdStore.list (s : EtcdStore) (root : String) : List Object :=
  (s.Nodes.filter (fun n => (root ++ "/").data.isPrefixOf n.Key.data)).map
    (fun n => n.Value.withResourceVersion (toString n.ModifiedIndex))

/-- Modelled from the spec: `Etcd.ListPredicate` is declared in
`pkg/registry/generic/etcd`. "Lists all keys under the namespace-scoped prefix,
deserializes each, filters by `predicate`, returns a ResourceList at the current store
revision." -/
def Etcd.ListPredicate (e : Etcd) (ctx : Context) (s : EtcdStore) (p : SelectionPredicate) :
    Except Error ConfigurationList :=
  match FilterList p (s.list (e.KeyRootFunc ctx)) with
  | .error err => .error err
  | .ok items => .ok { ResourceVersion := toString s.Index, Items := items }

/-- Modelled from the spec: `labels.Everything` and `fields.Everything` are declared in
`pkg/labels` and `pkg/fields`. The selector of a `List` "with no selector": it matches
every set. -/
def Everything : Selector :=
  { Matches := fun _ => true }

/-- Modelled from the spec: the selector `key=value` (such as the field selector
`type=foo`), declared in `pkg/fields`. It matches a set whose value for the key, the
empty string when the key is absent, is the given value. -/
def OneTermEqualSelector (k v : String) : Selector :=
  { Matches := fun set => ((set.lookup k).getD "") == v }

/-- The zero value `&api.Configuration{}`. -/
def emptyConfiguration : Configuration :=
  { ObjectMeta := { Name := "", Namespace := "", UID := "", ResourceVersion := "",
                    CreationTimestamp := 0, Labels := [], Annotations := [] },
    Type_ := "", Flags := [] }

/-- The `etcdgeneric.Etcd` value built by `NewEtcdRegistry` (`registry.go`, lines
35-46). -/
def configurationEtcd : Etcd :=
  { NewFunc := fun _ => .configuration emptyConfiguration,
    EndpointName := "configurations",
    KeyRootFunc := fun ctx => NamespaceKeyRootFunc ctx "/registry/configurations",
    KeyFunc := fun ctx id => NamespaceKeyFunc ctx "/registry/configurations" id }

/-- `NewEtcdRegistry` (`registry.go`, lines 33-48): the generic registry over the
store, with the methods of the embedded `etcdgeneric.Etcd`. -/
def NewEtcdRegistry : Registry EtcdStore :=
  { ListPredicate := configurationEtcd.ListPredicate,
    CreateWithName := configurationEtcd.CreateWithName,
    UpdateWithName := configurationEtcd.UpdateWithName,
    Get := configurationEtcd.Get,
    Delete := configurationEtcd.Delete }

/-- The node the store holds for a Configuration name: the node at the key that the
registry derives from the name. -/
def storedNode (ctx : Context) (s : EtcdStore) (name : String) : Option Node :=
  match configurationEtcd.KeyFunc ctx name with
  | .ok key => s.lookup key
  | .error _ => none

/-! ## Sample values -/

/-- A store with no keys. -/
def emptyStore : EtcdStore := { Nodes := [], Index := 0 }

/-- A request context. -/
def sampleContext : Context := { Namespace := "", Now := 1700000000, NewUID := "uid-1" }

/-- A validation that accepts every object. -/
def validateNone (_c : Configuration) : ValidationErrorList := []

/-- A validation that reports two errors for an object without flags. -/
def validateFlags (c : Configuration) : ValidationErrorList :=
  if c.Flags.isEmpty then
    [{ Field := "flags", Detail := "required" }, { Field := "type", Detail := "unsupported" }]
  else []

/-- A cluster-scoped Configuration named "alpha". -/
def sampleConfiguration : Configuration :=
  { ObjectMeta := { Name := "alpha", Namespace := "", UID := "", ResourceVersion := "",
                    CreationTimestamp := 0, Labels := [("env", "prod")],
                    Annotations := [("owner", "ops")] },
    Type_ := "foo", Flags := [("debug", "true")] }

/-- The sample Configuration placed in the namespace "default". -/
def namespacedConfiguration : Configuration :=
  { sampleConfiguration with
    ObjectMeta := { sampleConfiguration.ObjectMeta with Namespace := "default" } }

/-- The sample Configuration without a name. -/
def unnamedConfiguration : Configuration :=
  { sampleConfiguration with
    ObjectMeta := { sampleConfiguration.ObjectMeta with Name := "" } }

/-- The sample Configuration as an earlier `Create` left it in the store. -/
def storedConfiguration : Configuration :=
  { sampleConfiguration with
    ObjectMeta := { sampleConfiguration.ObjectMeta with
      UID := "uid-0", CreationTimestamp := 1600000000 } }

/-- A store holding the sample Configuration under its key, written at revision 1. -/
def sampleStore : EtcdStore :=
  { Nodes := [{ Key := "/registry/configurations/alpha",
                Value := .configuration storedConfiguration, ModifiedIndex := 1 }],
    Index := 1 }

/-- An update of "alpha" that clears the flags and tries to change the immutable
fields. -/
def flaglessUpdate : Configuration :=
  { ObjectMeta := { Name := "alpha", Namespace := "", UID := "uid-9", ResourceVersion := "1",
                    CreationTimestamp := 5, Labels := [("env", "test")], Annotations := [] },
    Type_ := "bar", Flags := [] }

/-- The sample Configuration as `Create` returns it from the empty store. -/
def createdConfiguration : Configuration :=
  { sampleConfiguration with
    ObjectMeta := { sampleConfiguration.ObjectMeta with
      UID := "uid-1", CreationTimestamp := 1700000000, ResourceVersion := "1" } }

/-- The sample Configuration with the system fields filled, as `Create` stores it. -/
def filledConfiguration : Configuration :=
  { sampleConfiguration with
    ObjectMeta := FillObjectMetaSystemFields sampleContext sampleConfiguration.ObjectMeta }

/-- The store after the sample Configuration was created in the empty store. -/
def createdStore : EtcdStore :=
  { Nodes := [{ Key := "/registry/configurations/alpha",
                Value := .configuration { createdConfiguration with
                  ObjectMeta := { createdConfiguration.ObjectMeta with ResourceVersion := "" } },
                ModifiedIndex := 1 }],
    Index := 1 }

/-- The stored sample Configuration after `flaglessUpdate` was applied to it, as
`Update` returns it: name, type and creation metadata as stored, the editable fields
as sent, the ResourceVersion of the write. -/
def updatedConfiguration : Configuration :=
  { ObjectMeta := { Name := "alpha", Namespace := "", UID := "uid-0", ResourceVersion := "2",
                    CreationTimestamp := 1600000000, Labels := [("env", "test")],
                    Annotations := [] },
    Type_ := "foo", Flags := [] }

/-- The sample store after that update. -/
def updatedStore : EtcdStore :=
  { Nodes := [{ Key := "/registry/configurations/alpha",
                Value := .configuration { updatedConfiguration with
                  ObjectMeta := { updatedConfiguration.ObjectMeta with ResourceVersion := "1" } },
                ModifiedIndex := 2 }],
    Index := 2 }

/-- The handler over the store-backed registry. -/
def sampleREST : REST EtcdStore := NewStorage NewEtcdRegistry

/-- Whether both selectors match the sets that `getAttrs` extracts from the object
(false when the extraction fails). -/
def selects {σ : Type} (rs : REST σ) (label field : Selector) (obj : Object) : Bool :=
  match rs.getAttrs obj with
  | .ok (objLabels, objFields) => label.Matches objLabels && field.Matches objFields
  | .error _ => false

/-- Whether the object is a Configuration of the given type. -/
def Object.hasType (obj : Object) (t : String) : Bool :=
  match obj with
  | .configuration c => c.Type_ == t
  | .other _ => false

/-- A store with two Configurations, "a" of type foo and "b" of type bar, and a key of
another resource kind outside the Configuration prefix. -/
def listStore : EtcdStore :=
  { Nodes := [{ Key := "/registry/configurations/a",
                Value := .configuration { sampleConfiguration with
                  ObjectMeta := { sampleConfiguration.ObjectMeta with Name := "a" } },
                ModifiedIndex := 1 },
              { Key := "/registry/pods/p", Value := .other "Pod", ModifiedIndex := 2 },
              { Key := "/registry/configurations/b",
                Value := .configuration { sampleConfiguration with
                  ObjectMeta := { sampleConfiguration.ObjectMeta with Name := "b" },
                  Type_ := "bar" },
                ModifiedIndex := 3 }],
    Index := 3 }

/-- The Configuration "a" of `listStore` as the registry reads it. -/
def listedA : Object :=
  .configuration { sampleConfiguration with
    ObjectMeta := { sampleConfiguration.ObjectMeta with Name := "a", ResourceVersion := "1" } }

/-- The Configuration "b" of `listStore` as the registry reads it. -/
def listedB : Object :=
  .configuration { sampleConfiguration with
    ObjectMeta := { sampleConfiguration.ObjectMeta with Name := "b", ResourceVersion := "3" },
    Type_ := "bar" }

/-! ## The image-name parser (`parsers.go`) -/

namespace parsers

/-- The constant `defaultImageTag`. -/
def defaultImageTag : String := "latest"

/-- `strings.Index(s, sep)` for a separator of one character: the offset of its first
occurrence in `s`, or -1. Strings are sequences of characters here; the separators of
`parsers.go` are the one-byte characters `@`, `:` and `/`, so offsets and slices taken
at them cut a string at the same places as the byte offsets of Go. -/
def Index : List Char → Char → Int
  | [], _ => -1
  | x :: xs, sep =>
    if x = sep then 0
    else
      let r := Index xs sep
      if r < 0 then -1 else r + 1

/-- `strings.LastIndex(s, sep)` for a separator of one character: the offset of its last
occurrence in `s`, or -1. -/
def LastIndex : List Char → Char → Int
  | [], _ => -1
  | x :: xs, sep =>
    let r := LastIndex xs sep
    if r < 0 then (if x = sep then 0 else -1) else r + 1

/-- `strings.Contains(s, substr)`, which is `Index(s, substr) >= 0`. -/
def Contains (s : List Char) (sep : Char) : Bool :=
  Index s sep ≥ 0

/-- `strings.Split(s, sep)` for a separator of one character: the pieces of `s` between
the occurrences of `sep`, one more than there are occurrences. -/
def Split : List Char → Char → List (List Char)
  | [], _ => [[]]
  | x :: xs, sep =>
    if x = sep then [] :: Split xs sep
    else
      match Split xs sep with
      | [] => [[x]]
      | part :: parts => (x :: part) :: parts

/-- The slice expression `s[i:j]`; `none` is the panic of a slice out of range. -/
def slice (s : List Char) (i j : Int) : Option (List Char) :=
  if 0 ≤ i ∧ i ≤ j ∧ j ≤ (s.length : Int) then some ((s.take j.toNat).drop i.toNat) else none

/-- `parseRepositoryTag` (`parsers.go`, lines 34-48). `parts[0]` and `parts[1]` are
index expressions and `repos[n+1:]`, `repos[:n]` slice expressions; `none` is the panic
of one of them out of range. -/
def parseRepositoryTag (repos : String) : Option (String × String) :=
  let n := Index repos.data '@'
  if n ≥ 0 then
    let parts := Split repos.data '@'
    match parts.get? 0, parts.get? 1 with
    | some part0, some part1 => some (String.mk part0, String.mk part1)
    | _, _ => none
  else
    let n := LastIndex repos.data ':'
    if n < 0 then some (repos, "")
    else
      match slice repos.data (n + 1) repos.data.length with
      | none => none
      | some tag =>
        if !Contains tag '/' then
          match slice repos.data 0 n with
          | none => none
          | some repo => some (String.mk repo, String.mk tag)
        else some (repos, "")

/-- `ParseImageName` (`parsers.go`, lines 52-59). -/
def ParseImageName (image : String) : Option (String × String) :=
  match parseRepositoryTag image with
  | none => none
  | some (repoToPull, tag) =>
    let tag := if tag.length = 0 then defaultImageTag else tag
    some (repoToPull, tag)

end parsers

/-! ## Properties of the handler, for every registry -/

section HandlerProperties

variable {σ : Type}

theorem length_eq_zero_iff_empty (t : String) : t.length = 0 ↔ t = "" := by
  constructor
  · intro h
    have hd : t.data = [] := List.length_eq_zero.mp h
    exact String.ext hd
  · intro h
    subst h
    rfl

theorem setEditableFields_Name (old c : Configuration) :
    (setEditableFields old c).ObjectMeta.Name = old.ObjectMeta.Name := rfl

/-- C1: whatever the registry, its state and the validation function, `Create` and
`Update` of a Configuration with a non-empty namespace return a Conflict error (and
leave the state as it was), whatever the other fields hold. -/
theorem Create_Update_namespace_Conflict (rs : REST σ)
    (ValidateConfiguration : Configuration → ValidationErrorList) (ctx : Context) (s : σ)
    (c : Configuration) (h : c.ObjectMeta.Namespace ≠ "") :
    rs.Create ValidateConfiguration ctx s (.configuration c)
        = (.error (.Conflict "configuration" c.ObjectMeta.Namespace
            "Configuration objects should not have a namespace."), s)
      ∧ rs.Update ValidateConfiguration ctx s (.configuration c)
        = (.error (.Conflict "configuration" c.ObjectMeta.Namespace
            "Configuration objects should not have a namespace."), s) := by
  constructor
  · simp [REST.Create, h]
  · simp [REST.Update, h]

theorem Create_Update_namespace_Conflict_witness :
    namespacedConfiguration.ObjectMeta.Namespace ≠ ""
      ∧ sampleREST.Create validateNone sampleContext emptyStore
          (.configuration namespacedConfiguration)
        = (.error (.Conflict "configuration" "default"
            "Configuration objects should not have a namespace."), emptyStore)
      ∧ sampleREST.Update validateNone sampleContext emptyStore
          (.configuration namespacedConfiguration)
        = (.error (.Conflict "configuration" "default"
            "Configuration objects should not have a namespace."), emptyStore) :=
  ⟨by decide,
   Create_Update_namespace_Conflict sampleREST validateNone sampleContext emptyStore
     namespacedConfiguration (by decide)⟩

/-- C9: whatever the registry, its state and the validation function, `Create` of a
Configuration with empty namespace and empty name returns the Conflict error of the
name check and leaves the state as it was: neither the outcome of validation nor
`CreateWithName` has any part in the result. -/
theorem Create_empty_name_Conflict (rs : REST σ)
    (ValidateConfiguration : Configuration → ValidationErrorList) (ctx : Context) (s : σ)
    (c : Configuration) (hns : c.ObjectMeta.Namespace = "") (hname : c.ObjectMeta.Name = "") :
    rs.Create ValidateConfiguration ctx s (.configuration c)
      = (.error (.Conflict "configuration" ""
          "Configuration objects must have a name."), s) := by
  simp [REST.Create, hns, hname]

theorem Create_empty_name_Conflict_witness :
    unnamedConfiguration.ObjectMeta.Namespace = ""
      ∧ unnamedConfiguration.ObjectMeta.Name = ""
      ∧ validateFlags { unnamedConfiguration with Flags := [] } ≠ []
      ∧ sampleREST.Create validateFlags sampleContext emptyStore
          (.configuration { unnamedConfiguration with Flags := [] })
        = (.error (.Conflict "configuration" ""
            "Configuration objects must have a name."), emptyStore) :=
  ⟨by decide, by decide, by decide,
   Create_empty_name_Conflict sampleREST validateFlags sampleContext emptyStore
     { unnamedConfiguration with Flags := [] } (by decide) (by decide)⟩

/-- C10 (the code at a labelled object): for the sample Configuration, which carries
the label `env=prod`, `getAttrs` returns the empty label set, not the labels of the
object. -/
theorem getAttrs_sample_label_set_empty :
    sampleConfiguration.ObjectMeta.Labels = [("env", "prod")]
      ∧ sampleREST.getAttrs (.configuration sampleConfiguration)
          = .ok ([], [("type", "foo")]) := by
  constructor <;> rfl

/-- C4: whatever the registry and its state, each check of the handler that rejects
the input returns its error with the state unchanged: (1) an object of another kind,
for `Create` and `Update`; (2) a non-empty namespace, for `Create` and `Update`; (3) an
empty name, for `Create`; (4) a non-empty list from `ValidateConfiguration`, for
`Create`, where the Invalid error carries that whole list; (5) for `Update`, a
non-empty list from `ValidateConfiguration` applied to the merged object (the stored
object with the editable fields of the incoming one), where the Invalid error carries
that whole list and `UpdateWithName` has no part in the result. -/
theorem handler_checks_leave_state (rs : REST σ)
    (ValidateConfiguration : Configuration → ValidationErrorList) (ctx : Context) (s : σ) :
    (∀ k : String,
        rs.Create ValidateConfiguration ctx s (.other k)
          = (.error (.Errorf "invalid object type" []), s)
        ∧ rs.Update ValidateConfiguration ctx s (.other k)
          = (.error (.Errorf "invalid configuration object: %#v" [.other k]), s))
    ∧ (∀ c : Configuration, c.ObjectMeta.Namespace ≠ "" →
        (rs.Create ValidateConfiguration ctx s (.configuration c)).2 = s
        ∧ (rs.Update ValidateConfiguration ctx s (.configuration c)).2 = s)
    ∧ (∀ c : Configuration, c.ObjectMeta.Namespace = "" → c.ObjectMeta.Name = "" →
        (rs.Create ValidateConfiguration ctx s (.configuration c)).2 = s)
    ∧ (∀ c : Configuration, c.ObjectMeta.Namespace = "" → c.ObjectMeta.Name ≠ "" →
        ValidateConfiguration c ≠ [] →
        rs.Create ValidateConfiguration ctx s (.configuration c)
          = (.error (.Invalid "configuration" c.ObjectMeta.Name (ValidateConfiguration c)), s))
    ∧ (∀ c old : Configuration, c.ObjectMeta.Namespace = "" →
        rs.registry.Get ctx s c.ObjectMeta.Name = .ok (.configuration old) →
        ValidateConfiguration (setEditableFields old c) ≠ [] →
        rs.Update ValidateConfiguration ctx s (.configuration c)
          = (.error (.Invalid "configuration" old.ObjectMeta.Name
              (ValidateConfiguration (setEditableFields old c))), s)) := by
  refine ⟨?_, ?_, ?_, ?_, ?_⟩
  · intro k
    exact ⟨rfl, rfl⟩
  · intro c h
    constructor
    · simp [REST.Create, h]
    · simp [REST.Update, h]
  · intro c hns hname
    simp [REST.Create, hns, hname]
  · intro c hns hname herrs
    have hlen : c.ObjectMeta.Name.length ≠ 0 := fun h =>
      hname ((length_eq_zero_iff_empty _).mp h)
    have hpos : 0 < (ValidateConfiguration c).length := List.length_pos.mpr herrs
    simp [REST.Create, hns, hlen, hpos]
  · intro c old hns hget herrs
    have hpos : 0 < (ValidateConfiguration (setEditableFields old c)).length :=
      List.length_pos.mpr herrs
    simp [REST.Update, hns, hget, hpos, setEditableFields_Name]

theorem handler_checks_leave_state_witness :
    flaglessUpdate.ObjectMeta.Namespace = ""
      ∧ sampleREST.registry.Get sampleContext sampleStore flaglessUpdate.ObjectMeta.Name
          = .ok (.configuration { storedConfiguration with
              ObjectMeta := { storedConfiguration.ObjectMeta with ResourceVersion := "1" } })
      ∧ sampleREST.Update validateFlags sampleContext sampleStore (.configuration flaglessUpdate)
          = (.error (.Invalid "configuration" "alpha"
              [{ Field := "flags", Detail := "required" },
               { Field := "type", Detail := "unsupported" }]), sampleStore) :=
  ⟨by decide, rfl,
   (handler_checks_leave_state sampleREST validateFlags sampleContext sampleStore).2.2.2.2
     flaglessUpdate
     { storedConfiguration with
       ObjectMeta := { storedConfiguration.ObjectMeta with ResourceVersion := "1" } }
     (by decide) rfl (by decide)⟩

/-- C3: whatever the registry, when the registry holds `R` under the name of the
incoming Configuration `C` (empty namespace, `C.Name = R.Name`) and `Update(C)`
succeeds, the object handed to `UpdateWithName` is `R` with the Labels, Annotations,
ResourceVersion and Flags of `C`, the state returned is the one `UpdateWithName` left,
and the object returned is what `Get` reads from that state. -/
theorem Update_writes_editable_fields (rs : REST σ)
    (ValidateConfiguration : Configuration → ValidationErrorList) (ctx : Context) (s s' : σ)
    (C R : Configuration) (out : Object) (b : Bool)
    (hns : C.ObjectMeta.Namespace = "") (hname : C.ObjectMeta.Name = R.ObjectMeta.Name)
    (hget : rs.registry.Get ctx s C.ObjectMeta.Name = .ok (.configuration R))
    (hupd : rs.Update ValidateConfiguration ctx s (.configuration C) = (.ok (out, b), s')) :
    (setEditableFields R C).ObjectMeta.Labels = C.ObjectMeta.Labels
      ∧ (setEditableFields R C).ObjectMeta.Annotations = C.ObjectMeta.Annotations
      ∧ (setEditableFields R C).ObjectMeta.ResourceVersion = C.ObjectMeta.ResourceVersion
      ∧ (setEditableFields R C).Flags = C.Flags
      ∧ rs.registry.UpdateWithName ctx s C.ObjectMeta.Name
          (.configuration (setEditableFields R C)) = (none, s')
      ∧ rs.registry.Get ctx s' C.ObjectMeta.Name = .ok out := by
  refine ⟨rfl, rfl, rfl, rfl, ?_⟩
  simp only [REST.Update, hns, hget, setEditableFields_Name, ← hname, ne_eq,
    not_true_eq_false, if_false] at hupd
  split at hupd
  · simp at hupd
  · rename_i hlen
    cases hw : rs.registry.UpdateWithName ctx s C.ObjectMeta.Name
        (.configuration (setEditableFields R C)) with
    | mk e s1 =>
      rw [hw] at hupd
      cases e with
      | some err => simp at hupd
      | none =>
        simp only at hupd
        cases hg : rs.registry.Get ctx s1 C.ObjectMeta.Name with
        | error err => simp [hg] at hupd
        | ok o =>
          simp only [hg, Prod.mk.injEq, Except.ok.injEq] at hupd
          obtain ⟨⟨ho, -⟩, hs⟩ := hupd
          subst hs
          subst ho
          exact ⟨rfl, hg⟩

theorem Update_writes_editable_fields_witness :
    sampleREST.registry.Get sampleContext sampleStore "alpha"
        = .ok (.configuration { storedConfiguration with
            ObjectMeta := { storedConfiguration.ObjectMeta with ResourceVersion := "1" } })
      ∧ sampleREST.Update validateNone sampleContext sampleStore (.configuration flaglessUpdate)
        = (.ok (.configuration updatedConfiguration, false), updatedStore)
      ∧ sampleREST.registry.UpdateWithName sampleContext sampleStore "alpha"
          (.configuration { updatedConfiguration with
            ObjectMeta := { updatedConfiguration.ObjectMeta with ResourceVersion := "1" } })
        = (none, updatedStore)
      ∧ sampleREST.registry.Get sampleContext updatedStore "alpha"
        = .ok (.configuration updatedConfiguration) :=
  ⟨rfl, rfl,
   (Update_writes_editable_fields sampleREST validateNone sampleContext sampleStore updatedStore
     flaglessUpdate
     { storedConfiguration with
       ObjectMeta := { storedConfiguration.ObjectMeta with ResourceVersion := "1" } }
     (.configuration updatedConfiguration) false (by decide) (by decide) rfl rfl).2.2.2.2⟩

end HandlerProperties

/-! ## Properties of the handler over the store-backed registry -/

section StoreProperties

/-- The key the registry derives for a name. -/
theorem KeyFunc_ok (ctx : Context) (name : String) :
    configurationEtcd.KeyFunc ctx name = .ok ("/registry/configurations" ++ "/" ++ name) := rfl

theorem lookup_create (s : EtcdStore) (key : String) (obj : Object)
    (h : s.lookup key = none) :
    (s.create key obj).lookup key
      = some { Key := key, Value := obj, ModifiedIndex := s.Index + 1 } := by
  unfold EtcdStore.lookup at h ⊢
  simp [EtcdStore.create, List.find?_append, h]

theorem lookup_set (s : EtcdStore) (key : String) (obj : Object) (n : Node)
    (h : s.lookup key = some n) :
    (s.set key obj).lookup key
      = some { Key := key, Value := obj, ModifiedIndex := s.Index + 1 } := by
  unfold EtcdStore.lookup at h ⊢
  simp only [EtcdStore.set]
  generalize s.Nodes = l at h
  induction l with
  | nil => simp at h
  | cons m l ih =>
    by_cases hm : (m.Key == key) = true
    · simp [List.find?, hm]
    · have hm' : (m.Key == key) = false := by simpa using hm
      rw [List.find?_cons, hm'] at h
      rw [List.map_cons, if_neg hm, List.find?_cons, hm']
      exact ih h

theorem lookup_delete (s : EtcdStore) (key : String) :
    (s.delete key).lookup key = none := by
  unfold EtcdStore.lookup
  simp [EtcdStore.delete, List.find?_eq_none]

/-- `Get` of the registry, in terms of the node stored for the name. -/
theorem registry_Get (ctx : Context) (s : EtcdStore) (name : String) :
    NewEtcdRegistry.Get ctx s name
      = match storedNode ctx s name with
        | none => .error (.NotFound "configurations" name)
        | some n => .ok (n.Value.withResourceVersion (toString n.ModifiedIndex)) := rfl

/-- `CreateWithName` of the registry, in terms of the node stored for the name. -/
theorem registry_CreateWithName (ctx : Context) (s : EtcdStore) (name : String) (obj : Object) :
    NewEtcdRegistry.CreateWithName ctx s name obj
      = match storedNode ctx s name with
        | some _ => (some (.AlreadyExists "configurations" name), s)
        | none => (none, s.create ("/registry/configurations" ++ "/" ++ name) obj) := rfl

/-- `UpdateWithName` of the registry, in terms of the node stored for the name. -/
theorem registry_UpdateWithName (ctx : Context) (s : EtcdStore) (name : String) (obj : Object) :
    NewEtcdRegistry.UpdateWithName ctx s name obj
      = match storedNode ctx s name with
        | none => (some (.NotFound "configurations" name), s)
        | some _ => (none, s.set ("/registry/configurations" ++ "/" ++ name) obj) := rfl

/-- `Delete` of the registry, in terms of the node stored for the name. -/
theorem registry_Delete (ctx : Context) (s : EtcdStore) (name : String) :
    NewEtcdRegistry.Delete ctx s name
      = match storedNode ctx s name with
        | none => (.error (.NotFound "configurations" name), s)
        | some n => (.ok (n.Value.withResourceVersion (toString n.ModifiedIndex)),
            s.delete ("/registry/configurations" ++ "/" ++ name)) := rfl

theorem storedNode_create (ctx ctx' : Context) (s : EtcdStore) (name : String) (obj : Object)
    (h : storedNode ctx s name = none) :
    storedNode ctx' (s.create ("/registry/configurations" ++ "/" ++ name) obj) name
      = some { Key := "/registry/configurations" ++ "/" ++ name, Value := obj,
               ModifiedIndex := s.Index + 1 } :=
  lookup_create s _ obj h

theorem storedNode_set (ctx ctx' : Context) (s : EtcdStore) (name : String) (obj : Object)
    (n : Node) (h : storedNode ctx s name = some n) :
    storedNode ctx' (s.set ("/registry/configurations" ++ "/" ++ name) obj) name
      = some { Key := "/registry/configurations" ++ "/" ++ name, Value := obj,
               ModifiedIndex := s.Index + 1 } :=
  lookup_set s _ obj n h

theorem storedNode_delete (ctx' : Context) (s : EtcdStore) (name : String) :
    storedNode ctx' (s.delete ("/registry/configurations" ++ "/" ++ name)) name = none :=
  lookup_delete s _

theorem toDigitsCore_ne_nil (b f n : Nat) (ds : List Char) (h : ds ≠ []) :
    Nat.toDigitsCore b f n ds ≠ [] := by
  induction f generalizing n ds with
  | zero => simpa [Nat.toDigitsCore] using h
  | succ f ih =>
    simp only [Nat.toDigitsCore]
    split
    · simp
    · exact ih _ _ (by simp)

/-- The decimal rendering of a store revision is never the empty string. -/
theorem toString_ne_empty (n : Nat) : toString n ≠ "" := by
  intro h
  have hd : Nat.toDigitsCore 10 (n + 1) n [] = [] := congrArg String.data h
  simp only [Nat.toDigitsCore] at hd
  split at hd
  · simp at hd
  · exact toDigitsCore_ne_nil _ _ _ _ (by simp) hd

/-- `Create` over the store-backed registry, for an object that passes the namespace
and name checks. -/
theorem Create_store (ValidateConfiguration : Configuration → ValidationErrorList)
    (ctx : Context) (s : EtcdStore) (R : Configuration)
    (hns : R.ObjectMeta.Namespace = "") (hname : R.ObjectMeta.Name ≠ "") :
    (NewStorage NewEtcdRegistry).Create ValidateConfiguration ctx s (.configuration R)
      = if ValidateConfiguration R ≠ [] then
          (.error (.Invalid "configuration" R.ObjectMeta.Name (ValidateConfiguration R)), s)
        else
          match storedNode ctx s R.ObjectMeta.Name with
          | some _ => (.error (.AlreadyExists "configurations" R.ObjectMeta.Name), s)
          | none =>
            (.ok (.configuration { R with ObjectMeta :=
                { FillObjectMetaSystemFields ctx R.ObjectMeta with
                  ResourceVersion := toString (s.Index + 1) } }),
             s.create ("/registry/configurations" ++ "/" ++ R.ObjectMeta.Name)
               (.configuration { R with
                 ObjectMeta := FillObjectMetaSystemFields ctx R.ObjectMeta })) := by
  have hlen : R.ObjectMeta.Name.length ≠ 0 := fun h =>
    hname ((length_eq_zero_iff_empty _).mp h)
  by_cases hv : ValidateConfiguration R = []
  · have hname' : (FillObjectMetaSystemFields ctx R.ObjectMeta).Name = R.ObjectMeta.Name := rfl
    simp only [REST.Create, NewStorage, hns, hlen, hv, registry_CreateWithName, hname',
      ne_eq, not_true_eq_false, if_false, List.length_nil, gt_iff_lt, lt_self_iff_false]
    cases hl : storedNode ctx s R.ObjectMeta.Name with
    | some n => rfl
    | none =>
      simp only [registry_Get, storedNode_create ctx ctx s _ _ hl]
      rfl
  · have hpos : 0 < (ValidateConfiguration R).length := List.length_pos.mpr hv
    simp [REST.Create, NewStorage, hns, hlen, hv, hpos]

/-- C8: over the store-backed registry, (1) when `Delete(name)` succeeds, a `Get(name)`
on the resulting state fails with NotFound; (2) when nothing is stored under the name,
`Delete(name)` fails with NotFound and leaves the state as it was; (3) when a
Configuration is stored under the name, `Delete(name)` does succeed. -/
theorem Delete_then_Get_NotFound (ctx ctx' : Context) (s : EtcdStore) (name : String) :
    (∀ (out : Object) (s' : EtcdStore),
        (NewStorage NewEtcdRegistry).Delete ctx s name = (.ok out, s') →
        (NewStorage NewEtcdRegistry).Get ctx' s' name
          = .error (.NotFound "configurations" name))
    ∧ (storedNode ctx s name = none →
        (NewStorage NewEtcdRegistry).Delete ctx s name
          = (.error (.NotFound "configurations" name), s))
    ∧ (∀ (n : Node) (c : Configuration), storedNode ctx s name = some n →
        n.Value = .configuration c →
        ∃ (out : Object) (s' : EtcdStore),
          (NewStorage NewEtcdRegistry).Delete ctx s name = (.ok out, s')) := by
  refine ⟨?_, ?_, ?_⟩
  · intro out s' h
    simp only [REST.Delete, NewStorage, registry_Get, registry_Delete] at h
    cases hl : storedNode ctx s name with
    | none => simp [hl] at h
    | some n =>
      simp only [hl] at h
      cases hv : n.Value with
      | other k => simp [hv, Object.withResourceVersion] at h
      | configuration c =>
        simp only [hv, Object.withResourceVersion, Prod.mk.injEq] at h
        obtain ⟨-, hs⟩ := h
        subst hs
        simp only [REST.Get, NewStorage, registry_Get, storedNode_delete]
  · intro h
    simp only [REST.Delete, NewStorage, registry_Get, h]
  · intro n c h hv
    simp only [REST.Delete, NewStorage, registry_Get, registry_Delete, h, hv,
      Object.withResourceVersion]
    exact ⟨_, _, rfl⟩

theorem Delete_then_Get_NotFound_witness :
    (∃ out, sampleREST.Delete sampleContext sampleStore "alpha"
        = (.ok out, { Nodes := [], Index := 2 }))
      ∧ sampleREST.Get sampleContext { Nodes := [], Index := 2 } "alpha"
          = .error (.NotFound "configurations" "alpha")
      ∧ storedNode sampleContext emptyStore "alpha" = none
      ∧ sampleREST.Delete sampleContext emptyStore "alpha"
          = (.error (.NotFound "configurations" "alpha"), emptyStore) :=
  ⟨⟨_, rfl⟩,
   (Delete_then_Get_NotFound sampleContext sampleContext sampleStore "alpha").1 _ _ rfl,
   rfl,
   (Delete_then_Get_NotFound sampleContext sampleContext emptyStore "alpha").2.1 rfl⟩

/-- C5: over the store-backed registry, for a Configuration `R` that validation
accepts, with empty namespace and a non-empty name under which nothing is stored,
`Create(R)` succeeds and a following `Get(R.Name)` succeeds and returns the created
object: `R` in every field except the creation timestamp and the UID, which hold the
clock reading and the UID drawn for the call, and the ResourceVersion, which holds the
(non-empty) store revision of the write. -/
theorem Create_then_Get_round_trip (ValidateConfiguration : Configuration → ValidationErrorList)
    (ctx ctx' : Context) (s : EtcdStore) (R : Configuration)
    (hvalid : ValidateConfiguration R = []) (hns : R.ObjectMeta.Namespace = "")
    (hname : R.ObjectMeta.Name ≠ "") (hnew : storedNode ctx s R.ObjectMeta.Name = none) :
    ∃ (out : Configuration) (s' : EtcdStore),
      (NewStorage NewEtcdRegistry).Create ValidateConfiguration ctx s (.configuration R)
        = (.ok (.configuration out), s')
      ∧ (NewStorage NewEtcdRegistry).Get ctx' s' R.ObjectMeta.Name = .ok (.configuration out)
      ∧ out = { R with ObjectMeta := { R.ObjectMeta with
                  CreationTimestamp := ctx.Now, UID := ctx.NewUID,
                  ResourceVersion := toString (s.Index + 1) } }
      ∧ out.ObjectMeta.ResourceVersion ≠ "" := by
  refine ⟨_, s.create ("/registry/configurations" ++ "/" ++ R.ObjectMeta.Name)
    (.configuration { R with ObjectMeta := FillObjectMetaSystemFields ctx R.ObjectMeta }),
    ?_, ?_, rfl, toString_ne_empty _⟩
  · rw [Create_store ValidateConfiguration ctx s R hns hname]
    simp only [hvalid, hnew, ne_eq, not_true_eq_false, if_false]
    rfl
  · simp only [REST.Get, NewStorage, registry_Get, storedNode_create ctx ctx' s _ _ hnew]
    rfl

theorem Create_then_Get_round_trip_witness :
    validateNone sampleConfiguration = []
      ∧ storedNode sampleContext emptyStore "alpha" = none
      ∧ ∃ (out : Configuration) (s' : EtcdStore),
        sampleREST.Create validateNone sampleContext emptyStore
            (.configuration sampleConfiguration) = (.ok (.configuration out), s')
        ∧ sampleREST.Get sampleContext s' "alpha" = .ok (.configuration out)
        ∧ out = { sampleConfiguration with ObjectMeta := { sampleConfiguration.ObjectMeta with
                    CreationTimestamp := 1700000000, UID := "uid-1",
                    ResourceVersion := toString (0 + 1) } }
        ∧ out.ObjectMeta.ResourceVersion ≠ "" :=
  ⟨rfl, rfl,
   Create_then_Get_round_trip validateNone sampleContext sampleContext emptyStore
     sampleConfiguration rfl (by decide) (by decide) rfl⟩

/-- C6: over the store-backed registry, when `Create(R)` has succeeded for a
Configuration `R` with empty namespace and non-empty name, a second `Create` of any
Configuration of the same name that passes the namespace check and validation fails
with AlreadyExists and leaves the state as the first call left it; the object stored
under the name is still the one the first call wrote. -/
theorem Create_twice_AlreadyExists (ValidateConfiguration : Configuration → ValidationErrorList)
    (ctx ctx2 : Context) (s s1 : EtcdStore) (R R2 : Configuration) (out : Object)
    (hns : R.ObjectMeta.Namespace = "") (hname : R.ObjectMeta.Name ≠ "")
    (hcreate : (NewStorage NewEtcdRegistry).Create ValidateConfiguration ctx s
      (.configuration R) = (.ok out, s1))
    (hns2 : R2.ObjectMeta.Namespace = "") (hname2 : R2.ObjectMeta.Name = R.ObjectMeta.Name)
    (hvalid2 : ValidateConfiguration R2 = []) :
    (NewStorage NewEtcdRegistry).Create ValidateConfiguration ctx2 s1 (.configuration R2)
        = (.error (.AlreadyExists "configurations" R.ObjectMeta.Name), s1)
      ∧ ∃ n : Node, storedNode ctx2 s1 R.ObjectMeta.Name = some n
          ∧ n.Value = .configuration
              { R with ObjectMeta := FillObjectMetaSystemFields ctx R.ObjectMeta } := by
  rw [Create_store ValidateConfiguration ctx s R hns hname] at hcreate
  by_cases hv : ValidateConfiguration R = []
  · simp only [hv, ne_eq, not_true_eq_false, if_false] at hcreate
    cases hl : storedNode ctx s R.ObjectMeta.Name with
    | some n => simp [hl] at hcreate
    | none =>
      simp only [hl, Prod.mk.injEq] at hcreate
      obtain ⟨-, hs1⟩ := hcreate
      subst hs1
      have hstored := storedNode_create ctx ctx2 s R.ObjectMeta.Name
        (.configuration { R with ObjectMeta := FillObjectMetaSystemFields ctx R.ObjectMeta }) hl
      refine ⟨?_, _, hstored, rfl⟩
      rw [Create_store ValidateConfiguration ctx2 _ R2 hns2 (hname2 ▸ hname)]
      simp only [hvalid2, hname2, hstored, ne_eq, not_true_eq_false, if_false]
  · simp [hv] at hcreate

theorem Create_twice_AlreadyExists_witness :
    sampleREST.Create validateNone sampleContext emptyStore (.configuration sampleConfiguration)
        = (.ok (.configuration createdConfiguration), createdStore)
      ∧ sampleREST.Create validateNone sampleContext createdStore (.configuration flaglessUpdate)
        = (.error (.AlreadyExists "configurations" "alpha"), createdStore) :=
  ⟨rfl,
   (Create_twice_AlreadyExists validateNone sampleContext sampleContext emptyStore createdStore
     sampleConfiguration flaglessUpdate (.configuration createdConfiguration)
     (by decide) (by decide) rfl (by decide) (by decide) rfl).1⟩

/-- C7: over the store-backed registry, `Update` of a Configuration with empty
namespace under whose name nothing is stored fails with NotFound and leaves the state
as it was. -/
theorem Update_absent_NotFound (ValidateConfiguration : Configuration → ValidationErrorList)
    (ctx : Context) (s : EtcdStore) (C : Configuration)
    (hns : C.ObjectMeta.Namespace = "") (habsent : storedNode ctx s C.ObjectMeta.Name = none) :
    (NewStorage NewEtcdRegistry).Update ValidateConfiguration ctx s (.configuration C)
      = (.error (.NotFound "configurations" C.ObjectMeta.Name), s) := by
  simp only [REST.Update, NewStorage, hns, registry_Get, habsent, ne_eq, not_true_eq_false,
    if_false]

theorem Update_absent_NotFound_witness :
    storedNode sampleContext emptyStore "alpha" = none
      ∧ sampleREST.Update validateNone sampleContext emptyStore
          (.configuration sampleConfiguration)
        = (.error (.NotFound "configurations" "alpha"), emptyStore) :=
  ⟨rfl,
   Update_absent_NotFound validateNone sampleContext emptyStore sampleConfiguration
     (by decide) rfl⟩

/-- `Update` over the store-backed registry, for an incoming object with empty
namespace under whose name a Configuration of that name is stored. -/
theorem Update_store (ValidateConfiguration : Configuration → ValidationErrorList)
    (ctx : Context) (s : EtcdStore) (C R : Configuration) (n : Node)
    (hns : C.ObjectMeta.Namespace = "") (hname : C.ObjectMeta.Name = R.ObjectMeta.Name)
    (hstored : storedNode ctx s C.ObjectMeta.Name = some n)
    (hR : n.Value = .configuration R) :
    (NewStorage NewEtcdRegistry).Update ValidateConfiguration ctx s (.configuration C)
      = if ValidateConfiguration (setEditableFields R C) ≠ [] then
          (.error (.Invalid "configuration" R.ObjectMeta.Name
            (ValidateConfiguration (setEditableFields R C))), s)
        else
          (.ok (.configuration { setEditableFields R C with ObjectMeta :=
                  { (setEditableFields R C).ObjectMeta with
                    ResourceVersion := toString (s.Index + 1) } }, false),
           s.set ("/registry/configurations" ++ "/" ++ C.ObjectMeta.Name)
             (.configuration (setEditableFields R C))) := by
  have hmerge : ∀ v : String,
      setEditableFields { R with ObjectMeta := { R.ObjectMeta with ResourceVersion := v } } C
        = setEditableFields R C := fun _ => rfl
  have hstored' : storedNode ctx s R.ObjectMeta.Name = some n := hname ▸ hstored
  simp only [REST.Update, NewStorage, hns, registry_Get, hstored, hR,
    Object.withResourceVersion, hmerge, setEditableFields_Name, registry_UpdateWithName,
    hstored', ne_eq, not_true_eq_false, if_false]
  by_cases hv : ValidateConfiguration (setEditableFields R C) = []
  · simp only [hv, List.length_nil, gt_iff_lt, lt_self_iff_false, if_false,
      not_true_eq_false, ← hname, storedNode_set ctx ctx s C.ObjectMeta.Name _ n hstored]
    rw [setEditableFields_Name, hname]
  · have hpos : 0 < (ValidateConfiguration (setEditableFields R C)).length :=
      List.length_pos.mpr hv
    simp only [gt_iff_lt, hpos, if_true, hv, not_false_eq_true]

/-- C2: over the store-backed registry, when Configuration `R` is stored under the name
of the incoming Configuration `C` (empty namespace, `C.Name = R.Name`) and `Update(C)`
succeeds, the object stored under that name afterwards has the Name, Type, UID and
creation timestamp of `R`, whatever `C` carries in those fields. -/
theorem Update_preserves_immutable_fields
    (ValidateConfiguration : Configuration → ValidationErrorList)
    (ctx ctx' : Context) (s s' : EtcdStore) (C R : Configuration) (n : Node)
    (out : Object) (b : Bool)
    (hns : C.ObjectMeta.Namespace = "") (hname : C.ObjectMeta.Name = R.ObjectMeta.Name)
    (hstored : storedNode ctx s C.ObjectMeta.Name = some n)
    (hR : n.Value = .configuration R)
    (hupd : (NewStorage NewEtcdRegistry).Update ValidateConfiguration ctx s (.configuration C)
      = (.ok (out, b), s')) :
    ∃ (n' : Node) (R' : Configuration),
      storedNode ctx' s' C.ObjectMeta.Name = some n'
      ∧ n'.Value = .configuration R'
      ∧ R'.ObjectMeta.Name = R.ObjectMeta.Name
      ∧ R'.Type_ = R.Type_
      ∧ R'.ObjectMeta.UID = R.ObjectMeta.UID
      ∧ R'.ObjectMeta.CreationTimestamp = R.ObjectMeta.CreationTimestamp := by
  rw [Update_store ValidateConfiguration ctx s C R n hns hname hstored hR] at hupd
  split at hupd
  · simp at hupd
  · simp only [Prod.mk.injEq] at hupd
    obtain ⟨-, hs⟩ := hupd
    subst hs
    exact ⟨_, setEditableFields R C, storedNode_set ctx ctx' s _ _ n hstored,
      rfl, rfl, rfl, rfl, rfl⟩

theorem Update_preserves_immutable_fields_witness :
    storedNode sampleContext sampleStore "alpha"
        = some { Key := "/registry/configurations/alpha",
                 Value := .configuration storedConfiguration, ModifiedIndex := 1 }
      ∧ (flaglessUpdate.Type_ ≠ storedConfiguration.Type_
          ∧ flaglessUpdate.ObjectMeta.UID ≠ storedConfiguration.ObjectMeta.UID
          ∧ flaglessUpdate.ObjectMeta.CreationTimestamp
              ≠ storedConfiguration.ObjectMeta.CreationTimestamp)
      ∧ sampleREST.Update validateNone sampleContext sampleStore (.configuration flaglessUpdate)
          = (.ok (.configuration updatedConfiguration, false), updatedStore)
      ∧ ∃ (n' : Node) (R' : Configuration),
          storedNode sampleContext updatedStore "alpha" = some n'
          ∧ n'.Value = .configuration R'
          ∧ R'.ObjectMeta.Name = "alpha"
          ∧ R'.Type_ = "foo"
          ∧ R'.ObjectMeta.UID = "uid-0"
          ∧ R'.ObjectMeta.CreationTimestamp = 1600000000 :=
  ⟨rfl, by decide, rfl,
   Update_preserves_immutable_fields validateNone sampleContext sampleContext sampleStore
     updatedStore flaglessUpdate storedConfiguration _ (.configuration updatedConfiguration)
     false (by decide) (by decide) rfl rfl rfl⟩

end StoreProperties

/-! ## Attribute extraction and listing -/

section ListProperties

variable {σ : Type}

/-- C11: for every Configuration `c`, `getAttrs` succeeds and the field set it returns
has the single entry `"type"` with the string value of `c.Type`; the result is the same
for any handler and any Configuration of the same type (no other field and no state
enters it); for an object of another kind `getAttrs` returns an error and no sets. -/
theorem getAttrs_field_set (rs rs' : REST σ) (c c' : Configuration) (k : String) :
    (rs.getAttrs (.configuration c)).map Prod.snd = .ok [("type", c.Type_)]
      ∧ (c.Type_ = c'.Type_ →
          rs.getAttrs (.configuration c) = rs'.getAttrs (.configuration c'))
      ∧ rs.getAttrs (.other k) = .error (.Errorf "invalid object type" []) := by
  refine ⟨rfl, ?_, rfl⟩
  intro h
  simp only [REST.getAttrs, h]

theorem getAttrs_field_set_witness :
    sampleConfiguration.Type_ = storedConfiguration.Type_
      ∧ sampleConfiguration ≠ storedConfiguration
      ∧ sampleREST.getAttrs (.configuration sampleConfiguration)
          = sampleREST.getAttrs (.configuration storedConfiguration) :=
  ⟨rfl, by decide,
   (getAttrs_field_set sampleREST sampleREST sampleConfiguration storedConfiguration "Pod").2.1
     rfl⟩

/-- On a list of Configurations, `FilterList` with the predicate that `List` builds
keeps the objects that both selectors select, and does not fail. -/
theorem FilterList_getAttrs (rs : REST σ) (label field : Selector) (l : List Object)
    (hkind : ∀ o ∈ l, ∃ c : Configuration, o = .configuration c) :
    FilterList { Label := label, Field := field, GetAttrs := rs.getAttrs } l
      = .ok (l.filter (selects rs label field)) := by
  induction l with
  | nil => rfl
  | cons o l ih =>
    obtain ⟨c, rfl⟩ := hkind o (List.mem_cons_self _ _)
    have ih' := ih (fun o ho => hkind o (List.mem_cons_of_mem _ ho))
    simp only [FilterList, SelectionPredicate.Matches, REST.getAttrs, ih', List.filter_cons,
      selects]

theorem selects_Everything_type (rs : REST σ) (t : String) (o : Object) :
    selects rs Everything (OneTermEqualSelector "type" t) o = o.hasType t := by
  cases o with
  | configuration c =>
    simp [selects, REST.getAttrs, Everything, OneTermEqualSelector, Object.hasType,
      List.lookup]
  | other k => rfl

theorem selects_Everything (rs : REST σ) (c : Configuration) :
    selects rs Everything Everything (.configuration c) = true := rfl

/-- C12: over the store-backed registry, when the objects stored under the
Configuration prefix are Configurations, `List` succeeds and returns, at the current
store revision, exactly the stored objects `r` for which the label selector matches the
label set of `getAttrs(r)` and the field selector matches its field set, in store
order; with the field selector `type=t` (and no label selector) these are exactly the
stored objects of type `t`, and with selectors that match everything they are all the
stored objects. -/
theorem List_returns_selected (ctx : Context) (s : EtcdStore) (label field : Selector)
    (t : String)
    (hkind : ∀ o ∈ s.list "/registry/configurations",
      ∃ c : Configuration, o = .configuration c) :
    (NewStorage NewEtcdRegistry).List ctx s label field
        = .ok { ResourceVersion := toString s.Index,
                Items := (s.list "/registry/configurations").filter
                  (selects (NewStorage NewEtcdRegistry) label field) }
      ∧ (NewStorage NewEtcdRegistry).List ctx s Everything (OneTermEqualSelector "type" t)
        = .ok { ResourceVersion := toString s.Index,
                Items := (s.list "/registry/configurations").filter (fun o => o.hasType t) }
      ∧ (NewStorage NewEtcdRegistry).List ctx s Everything Everything
        = .ok { ResourceVersion := toString s.Index,
                Items := s.list "/registry/configurations" } := by
  have hlist : ∀ label field : Selector,
      (NewStorage NewEtcdRegistry).List ctx s label field
        = .ok { ResourceVersion := toString s.Index,
                Items := (s.list "/registry/configurations").filter
                  (selects (NewStorage NewEtcdRegistry) label field) } := by
    intro label field
    have hreg : ∀ p : SelectionPredicate,
        (NewStorage NewEtcdRegistry).registry.ListPredicate ctx s p
          = match FilterList p (s.list "/registry/configurations") with
            | .error err => .error err
            | .ok items => .ok { ResourceVersion := toString s.Index, Items := items } :=
      fun _ => rfl
    simp only [REST.List, hreg]
    rw [FilterList_getAttrs (NewStorage NewEtcdRegistry) label field _ hkind]
  refine ⟨hlist label field, ?_, ?_⟩
  · rw [hlist]
    congr 2
    exact List.filter_congr (fun o _ => selects_Everything_type _ t o)
  · rw [hlist]
    congr 2
    rw [List.filter_eq_self]
    intro o ho
    obtain ⟨c, rfl⟩ := hkind o ho
    rfl

theorem List_returns_selected_witness :
    listStore.list "/registry/configurations" = [listedA, listedB]
      ∧ sampleREST.List sampleContext listStore Everything (OneTermEqualSelector "type" "foo")
        = .ok { ResourceVersion := "3", Items := [listedA] }
      ∧ sampleREST.List sampleContext listStore Everything Everything
        = .ok { ResourceVersion := "3", Items := [listedA, listedB] } :=
  ⟨by decide, rfl,
   (List_returns_selected sampleContext listStore Everything Everything "foo"
     (by
       intro o ho
       have hl : listStore.list "/registry/configurations" = [listedA, listedB] := by decide
       rw [hl] at ho
       rcases List.mem_cons.mp ho with h | h
       · exact ⟨_, h⟩
       · rcases List.mem_cons.mp h with h | h
         · exact ⟨_, h⟩
         · cases h)).2.2⟩

end ListProperties

/-! ## Keys and the object `Create` returns -/

section KeyProperties

theorem append_left_cancel (p a b : String) (h : p ++ a = p ++ b) : a = b := by
  have hd : (p ++ a).data = (p ++ b).data := congrArg String.data h
  rw [String.data_append, String.data_append] at hd
  exact String.ext (List.append_cancel_left hd)

/-- C13: for every name and every request context, whatever namespace it carries, the
key the registry of `NewEtcdRegistry` derives is `/registry/configurations/` followed
by the name, and `CreateWithName` stores the object at that key; the keys of two names
are equal only when the names are; the key root of list and watch is
`/registry/configurations`. -/
theorem KeyFunc_configurations (ctx ctx' : Context) (name name' : String) (s : EtcdStore)
    (obj : Object) :
    configurationEtcd.KeyFunc ctx name = .ok ("/registry/configurations/" ++ name)
      ∧ (storedNode ctx s name = none →
          (NewEtcdRegistry.CreateWithName ctx s name obj).2.lookup
              ("/registry/configurations/" ++ name)
            = some { Key := "/registry/configurations/" ++ name, Value := obj,
                     ModifiedIndex := s.Index + 1 })
      ∧ (configurationEtcd.KeyFunc ctx name = configurationEtcd.KeyFunc ctx' name' →
          name = name')
      ∧ configurationEtcd.KeyRootFunc ctx = "/registry/configurations" := by
  have hkey : ∀ n : String,
      "/registry/configurations" ++ "/" ++ n = "/registry/configurations/" ++ n := by
    intro n
    rw [String.append_assoc]
    rfl
  refine ⟨?_, ?_, ?_, rfl⟩
  · rw [KeyFunc_ok, hkey]
  · intro h
    rw [registry_CreateWithName, h, ← hkey]
    exact lookup_create s _ obj h
  · intro h
    rw [KeyFunc_ok, KeyFunc_ok, String.append_assoc, String.append_assoc] at h
    exact append_left_cancel _ _ _ (append_left_cancel _ _ _ (Except.ok.inj h))

theorem KeyFunc_configurations_witness :
    storedNode { sampleContext with Namespace := "kube-system" } emptyStore "alpha" = none
      ∧ (NewEtcdRegistry.CreateWithName { sampleContext with Namespace := "kube-system" }
            emptyStore "alpha" (.configuration sampleConfiguration)).2.lookup
          "/registry/configurations/alpha"
        = some { Key := "/registry/configurations/alpha",
                 Value := .configuration sampleConfiguration, ModifiedIndex := 1 } :=
  ⟨rfl,
   (KeyFunc_configurations { sampleContext with Namespace := "kube-system" } sampleContext
     "alpha" "beta" emptyStore (.configuration sampleConfiguration)).2.1 rfl⟩

/-- C14: over the store-backed registry, for a Configuration `R` that validation
accepts, with empty namespace and a non-empty name under which nothing is stored,
`Create(R)` succeeds; the state it returns is the one `CreateWithName` left after
storing `R` with the system fields filled by `FillObjectMetaSystemFields`; the object it
returns is what `registry.Get(R.Name)` reads from that state, that is the object now
stored under the name as the registry reads it, carrying the UID and creation timestamp
drawn for the call whatever the caller sent in those fields. -/
theorem Create_returns_stored_object
    (ValidateConfiguration : Configuration → ValidationErrorList)
    (ctx : Context) (s : EtcdStore) (R : Configuration)
    (hvalid : ValidateConfiguration R = []) (hns : R.ObjectMeta.Namespace = "")
    (hname : R.ObjectMeta.Name ≠ "") (hnew : storedNode ctx s R.ObjectMeta.Name = none) :
    ∃ (out : Configuration) (s' : EtcdStore) (n : Node),
      (NewStorage NewEtcdRegistry).Create ValidateConfiguration ctx s (.configuration R)
        = (.ok (.configuration out), s')
      ∧ NewEtcdRegistry.CreateWithName ctx s R.ObjectMeta.Name
          (.configuration { R with ObjectMeta := FillObjectMetaSystemFields ctx R.ObjectMeta })
        = (none, s')
      ∧ NewEtcdRegistry.Get ctx s' R.ObjectMeta.Name = .ok (.configuration out)
      ∧ storedNode ctx s' R.ObjectMeta.Name = some n
      ∧ n.Value
          = .configuration { R with ObjectMeta := FillObjectMetaSystemFields ctx R.ObjectMeta }
      ∧ .configuration out = n.Value.withResourceVersion (toString n.ModifiedIndex)
      ∧ out.ObjectMeta.UID = ctx.NewUID
      ∧ out.ObjectMeta.CreationTimestamp = ctx.Now := by
  have hstored := storedNode_create ctx ctx s R.ObjectMeta.Name
    (.configuration { R with ObjectMeta := FillObjectMetaSystemFields ctx R.ObjectMeta }) hnew
  refine ⟨_, _, _, ?_, ?_, ?_, hstored, rfl, rfl, rfl, rfl⟩
  · rw [Create_store ValidateConfiguration ctx s R hns hname]
    simp only [hvalid, hnew, ne_eq, not_true_eq_false, if_false]
  · rw [registry_CreateWithName, hnew]
  · rw [registry_Get, hstored]
    rfl

theorem Create_returns_stored_object_witness :
    sampleREST.Create validateNone sampleContext emptyStore (.configuration sampleConfiguration)
        = (.ok (.configuration createdConfiguration), createdStore)
      ∧ createdConfiguration ≠ sampleConfiguration
      ∧ ∃ (out : Configuration) (s' : EtcdStore) (n : Node),
        sampleREST.Create validateNone sampleContext emptyStore
            (.configuration sampleConfiguration) = (.ok (.configuration out), s')
        ∧ NewEtcdRegistry.CreateWithName sampleContext emptyStore "alpha"
            (.configuration filledConfiguration) = (none, s')
        ∧ NewEtcdRegistry.Get sampleContext s' "alpha" = .ok (.configuration out)
        ∧ storedNode sampleContext s' "alpha" = some n
        ∧ n.Value = .configuration filledConfiguration
        ∧ .configuration out = n.Value.withResourceVersion (toString n.ModifiedIndex)
        ∧ out.ObjectMeta.UID = "uid-1"
        ∧ out.ObjectMeta.CreationTimestamp = 1700000000 :=
  ⟨rfl, by decide,
   Create_returns_stored_object validateNone sampleContext emptyStore sampleConfiguration
     rfl (by decide) (by decide) rfl⟩

end KeyProperties

/-! ## Properties of the image-name parser -/

namespace parsers

theorem Index_ge (s : List Char) (sep : Char) : -1 ≤ Index s sep := by
  induction s with
  | nil => simp [Index]
  | cons x xs ih =>
    simp only [Index]
    split_ifs <;> omega

theorem Index_neg_iff (s : List Char) (sep : Char) : Index s sep < 0 ↔ sep ∉ s := by
  induction s with
  | nil => simp [Index]
  | cons x xs ih =>
    simp only [Index, List.mem_cons, not_or]
    by_cases hx : x = sep
    · simp [hx]
    · have hne : ¬ sep = x := fun h => hx h.symm
      by_cases hr : Index xs sep < 0
      · simp [hx, hr, hne, ih.mp hr]
      · have hge := Index_ge xs sep
        simp only [hx, hr, if_false, hne, not_false_eq_true, true_and]
        constructor
        · intro h
          omega
        · intro h
          exact absurd (ih.mpr h) hr

theorem LastIndex_neg_iff (s : List Char) (sep : Char) : LastIndex s sep < 0 ↔ sep ∉ s := by
  induction s with
  | nil => simp [LastIndex]
  | cons x xs ih =>
    simp only [LastIndex, List.mem_cons, not_or]
    by_cases hr : LastIndex xs sep < 0
    · have hxs := ih.mp hr
      by_cases hx : x = sep
      · simp [hr, hx]
      · have hne : ¬ sep = x := fun h => hx h.symm
        simp [hr, hx, hne, hxs]
    · have hxs : ¬ sep ∉ xs := fun h => hr (ih.mpr h)
      simp only [hr, if_false, hxs, and_false, iff_false]
      omega

theorem LastIndex_of_not_mem (s : List Char) (sep : Char) (h : sep ∉ s) :
    LastIndex s sep = -1 := by
  induction s with
  | nil => rfl
  | cons x xs ih =>
    have hx : ¬ x = sep := fun e => h (e ▸ List.mem_cons_self _ _)
    have hxs : sep ∉ xs := fun e => h (List.mem_cons_of_mem _ e)
    simp [LastIndex, ih hxs, hx]

theorem LastIndex_append (a b : List Char) (sep : Char) (hb : sep ∉ b) :
    LastIndex (a ++ sep :: b) sep = a.length := by
  induction a with
  | nil => simp [LastIndex, LastIndex_of_not_mem b sep hb]
  | cons x xs ih =>
    have hnn : ¬ ((xs.length : Int) < 0) := by omega
    show LastIndex (x :: (xs ++ sep :: b)) sep = ((x :: xs).length : Int)
    simp only [LastIndex, ih, List.length_cons, hnn, if_false]
    push_cast
    rfl

theorem exists_first (s : List Char) (sep : Char) (h : sep ∈ s) :
    ∃ a b, s = a ++ sep :: b ∧ sep ∉ a := by
  induction s with
  | nil => cases h
  | cons x xs ih =>
    by_cases hx : x = sep
    · exact ⟨[], xs, by simp [hx], by simp⟩
    · have hxs : sep ∈ xs := by
        rcases List.mem_cons.mp h with e | e
        · exact absurd e.symm hx
        · exact e
      obtain ⟨a, b, hab, ha⟩ := ih hxs
      refine ⟨x :: a, b, by simp [hab], ?_⟩
      intro hm
      rcases List.mem_cons.mp hm with e | e
      · exact hx e.symm
      · exact ha e

theorem exists_last (s : List Char) (sep : Char) (h : sep ∈ s) :
    ∃ a b, s = a ++ sep :: b ∧ sep ∉ b := by
  induction s with
  | nil => cases h
  | cons x xs ih =>
    by_cases hxs : sep ∈ xs
    · obtain ⟨a, b, hab, hb⟩ := ih hxs
      exact ⟨x :: a, b, by simp [hab], hb⟩
    · have hx : x = sep := by
        rcases List.mem_cons.mp h with e | e
        · exact e.symm
        · exact absurd e hxs
      exact ⟨[], xs, by simp [hx], hxs⟩

theorem Split_ne_nil (s : List Char) (sep : Char) : Split s sep ≠ [] := by
  induction s with
  | nil => simp [Split]
  | cons x xs ih =>
    simp only [Split]
    split_ifs
    · simp
    · split <;> simp

theorem Split_of_not_mem (s : List Char) (sep : Char) (h : sep ∉ s) : Split s sep = [s] := by
  induction s with
  | nil => rfl
  | cons x xs ih =>
    have hx : ¬ x = sep := fun e => h (e ▸ List.mem_cons_self _ _)
    have hxs : sep ∉ xs := fun e => h (List.mem_cons_of_mem _ e)
    simp [Split, hx, ih hxs]

theorem Split_append (a b : List Char) (sep : Char) (ha : sep ∉ a) :
    Split (a ++ sep :: b) sep = a :: Split b sep := by
  induction a with
  | nil => simp [Split]
  | cons x xs ih =>
    have hx : ¬ x = sep := fun e => ha (e ▸ List.mem_cons_self _ _)
    have hxs : sep ∉ xs := fun e => ha (List.mem_cons_of_mem _ e)
    simp [Split, hx, ih hxs]

theorem Contains_iff (s : List Char) (sep : Char) : Contains s sep = true ↔ sep ∈ s := by
  have h := Index_neg_iff s sep
  simp only [Contains, ge_iff_le, decide_eq_true_eq]
  constructor
  · intro hge
    by_contra hm
    have := h.mpr hm
    omega
  · intro hm
    by_contra hlt
    exact (h.mp (by omega)) hm

theorem slice_after (a b : List Char) (sep : Char) :
    slice (a ++ sep :: b) ((a.length : Int) + 1) ((a ++ sep :: b).length : Int) = some b := by
  have hlen : (a ++ sep :: b).length = a.length + 1 + b.length := by
    simp [List.length_append]; omega
  have hcond : (0 : Int) ≤ (a.length : Int) + 1
      ∧ (a.length : Int) + 1 ≤ ((a ++ sep :: b).length : Int)
      ∧ ((a ++ sep :: b).length : Int) ≤ ((a ++ sep :: b).length : Int) := by
    rw [hlen]; push_cast; omega
  have h1 : ((a.length : Int) + 1).toNat = a.length + 1 := by omega
  have hdrop : List.drop (a.length + 1) (a ++ sep :: b) = b := by
    rw [show a ++ sep :: b = (a ++ [sep]) ++ b by simp]
    exact List.drop_left' (by simp)
  simp only [slice, hcond, and_self, if_true, Int.toNat_ofNat, List.take_length, h1, hdrop]

theorem slice_before (a b : List Char) (sep : Char) :
    slice (a ++ sep :: b) 0 (a.length : Int) = some a := by
  have hcond : (0 : Int) ≤ 0 ∧ (0 : Int) ≤ (a.length : Int)
      ∧ (a.length : Int) ≤ ((a ++ sep :: b).length : Int) := by
    simp [List.length_append]; omega
  simp only [slice, hcond, and_self, if_true, Int.toNat_ofNat, Int.toNat_zero, List.drop_zero,
    List.take_left']

/-- Without `@` and without `:` the whole string is the repository. -/
theorem parseRepositoryTag_plain (repos : String) (hat : '@' ∉ repos.data)
    (hcolon : ':' ∉ repos.data) : parseRepositoryTag repos = some (repos, "") := by
  have h1 : ¬ (Index repos.data '@' ≥ 0) := by
    have := (Index_neg_iff repos.data '@').mpr hat
    omega
  have h2 : LastIndex repos.data ':' < 0 := (LastIndex_neg_iff repos.data ':').mpr hcolon
  simp only [parseRepositoryTag, h1, h2, if_false, if_true]

/-- Without `@`, the string is cut at its last `:` unless a `/` follows it. -/
theorem parseRepositoryTag_colon (repos : String) (a b : List Char)
    (hs : repos.data = a ++ ':' :: b) (hat : '@' ∉ repos.data) (hb : ':' ∉ b) :
    parseRepositoryTag repos
      = if '/' ∈ b then some (repos, "") else some (String.mk a, String.mk b) := by
  have h1 : ¬ (Index repos.data '@' ≥ 0) := by
    have := (Index_neg_iff repos.data '@').mpr hat
    omega
  have hn : LastIndex repos.data ':' = (a.length : Int) := by
    rw [hs]
    exact LastIndex_append a b ':' hb
  have h2 : ¬ ((a.length : Int) < 0) := by omega
  have h3 : slice repos.data ((a.length : Int) + 1) (repos.data.length : Int) = some b := by
    rw [hs]
    exact slice_after a b ':'
  have h4 : slice repos.data 0 (a.length : Int) = some a := by
    rw [hs]
    exact slice_before a b ':'
  simp only [parseRepositoryTag, h1, hn, h2, h3, h4, if_false]
  by_cases hsl : '/' ∈ b
  · have hc : Contains b '/' = true := (Contains_iff b '/').mpr hsl
    simp [hc, hsl]
  · have hc : Contains b '/' = false := by
      cases hcb : Contains b '/' with
      | false => rfl
      | true => exact absurd ((Contains_iff b '/').mp hcb) hsl
    simp [hc, hsl]

/-- With an `@`, the results are the first two pieces of the split at `@`: the text
before the first `@` and the text from there to the next `@` or the end. -/
theorem parseRepositoryTag_at (repos : String) (a b : List Char)
    (hs : repos.data = a ++ '@' :: b) (ha : '@' ∉ a) :
    ∃ part parts, Split b '@' = part :: parts
      ∧ Split repos.data '@' = a :: part :: parts
      ∧ parseRepositoryTag repos = some (String.mk a, String.mk part) := by
  have hmem : '@' ∈ repos.data := by
    rw [hs]
    simp
  have h1 : Index repos.data '@' ≥ 0 := by
    have hge := Index_ge repos.data '@'
    by_contra hlt
    exact ((Index_neg_iff repos.data '@').mp (by omega)) hmem
  have hsplit : Split repos.data '@' = a :: Split b '@' := by
    rw [hs]
    exact Split_append a b '@' ha
  cases hb : Split b '@' with
  | nil => exact absurd hb (Split_ne_nil b '@')
  | cons part parts =>
    refine ⟨part, parts, rfl, by rw [hsplit, hb], ?_⟩
    simp [parseRepositoryTag, h1, hsplit, hb]

/-- The parser returns on every input. -/
theorem parseRepositoryTag_some (repos : String) :
    ∃ repo tag, parseRepositoryTag repos = some (repo, tag) := by
  by_cases hat : '@' ∈ repos.data
  · obtain ⟨a, b, hs, ha⟩ := exists_first repos.data '@' hat
    obtain ⟨part, parts, -, -, h⟩ := parseRepositoryTag_at repos a b hs ha
    exact ⟨_, _, h⟩
  · by_cases hcolon : ':' ∈ repos.data
    · obtain ⟨a, b, hs, hb⟩ := exists_last repos.data ':' hcolon
      have h := parseRepositoryTag_colon repos a b hs hat hb
      by_cases hsl : '/' ∈ b
      · exact ⟨_, _, by rw [h, if_pos hsl]⟩
      · exact ⟨_, _, by rw [h, if_neg hsl]⟩
    · exact ⟨_, _, parseRepositoryTag_plain repos hat hcolon⟩

theorem ParseImageName_of_parse (image repo tag : String)
    (h : parseRepositoryTag image = some (repo, tag)) :
    ParseImageName image = some (repo, if tag = "" then "latest" else tag) := by
  simp only [ParseImageName, h, defaultImageTag, length_eq_zero_iff_empty]

theorem data_append_sep (a b : String) (sep : String) (c : Char) (hsep : sep.data = [c]) :
    (a ++ sep ++ b).data = a.data ++ c :: b.data := by
  rw [String.data_append, String.data_append, hsep]
  simp

theorem mk_ne_empty (b : String) (h : b ≠ "") : ¬ (String.mk b.data = "") := h

/-- C15: for every image `a:b` in which neither part contains `@` and the part `b`
after the last colon is non-empty and contains neither `:` nor `/`, `ParseImageName`
returns `(a, b)`: the text before the last colon and the text after it. -/
theorem ParseImageName_tag (a b : String) (hata : '@' ∉ a.data) (hatb : '@' ∉ b.data)
    (hcolon : ':' ∉ b.data) (hslash : '/' ∉ b.data) (hne : b ≠ "") :
    ParseImageName (a ++ ":" ++ b) = some (a, b) := by
  have hs : (a ++ ":" ++ b).data = a.data ++ ':' :: b.data := data_append_sep a b ":" ':' rfl
  have hat : '@' ∉ (a ++ ":" ++ b).data := by
    rw [hs]
    simp [hata, hatb]
  have h := parseRepositoryTag_colon (a ++ ":" ++ b) a.data b.data hs hat hcolon
  rw [if_neg hslash] at h
  rw [ParseImageName_of_parse _ _ _ h, if_neg (mk_ne_empty b hne)]

set_option maxRecDepth 100000 in
theorem ParseImageName_tag_witness :
    ParseImageName "repo:tag" = some ("repo", "tag")
      ∧ ParseImageName "localhost.localdomain:5000/samalba/hipache:latest"
          = some ("localhost.localdomain:5000/samalba/hipache", "latest") :=
  ⟨ParseImageName_tag "repo" "tag" (by decide) (by decide) (by decide) (by decide) (by decide),
   ParseImageName_tag "localhost.localdomain:5000/samalba/hipache" "latest"
     (by decide) (by decide) (by decide) (by decide) (by decide)⟩

/-- C16: for every image without `@` that either has no `:` or is `a:b` with no `:` in
`b` and a `/` in `b` (a slash after the last colon), `ParseImageName` returns the whole
image as the repository and "latest" as the tag. -/
theorem ParseImageName_default (image : String) (hat : '@' ∉ image.data)
    (h : ':' ∉ image.data
      ∨ ∃ a b : String, image = a ++ ":" ++ b ∧ ':' ∉ b.data ∧ '/' ∈ b.data) :
    ParseImageName image = some (image, "latest") := by
  rcases h with hcolon | ⟨a, b, rfl, hcolon, hslash⟩
  · rw [ParseImageName_of_parse _ _ _ (parseRepositoryTag_plain image hat hcolon)]
    rfl
  · have hs : (a ++ ":" ++ b).data = a.data ++ ':' :: b.data :=
      data_append_sep a b ":" ':' rfl
    have h := parseRepositoryTag_colon (a ++ ":" ++ b) a.data b.data hs hat hcolon
    rw [if_pos hslash] at h
    rw [ParseImageName_of_parse _ _ _ h]
    rfl

theorem ParseImageName_default_witness :
    ParseImageName "host:5000/repo" = some ("host:5000/repo", "latest")
      ∧ ParseImageName "repo" = some ("repo", "latest") :=
  ⟨ParseImageName_default "host:5000/repo" (by decide)
     (Or.inr ⟨"host", "5000/repo", by decide, by decide, by decide⟩),
   ParseImageName_default "repo" (by decide) (Or.inl (by decide))⟩

/-- C17 (as the code behaves): for every image `a@b` with no `@` in `a` and none in `b`,
that is with exactly one `@`, `ParseImageName` returns `a`, the text before the `@`, as
the repository and `b`, the whole text after it with its colons and slashes, as the
tag, or "latest" when `b` is empty. -/
theorem ParseImageName_digest (a b : String) (hata : '@' ∉ a.data) (hatb : '@' ∉ b.data) :
    ParseImageName (a ++ "@" ++ b) = some (a, if b = "" then "latest" else b) := by
  have hs : (a ++ "@" ++ b).data = a.data ++ '@' :: b.data := data_append_sep a b "@" '@' rfl
  obtain ⟨part, parts, hsplit, -, h⟩ := parseRepositoryTag_at (a ++ "@" ++ b) a.data b.data hs hata
  rw [Split_of_not_mem b.data '@' hatb] at hsplit
  have hpart : part = b.data := (List.cons.inj hsplit).1.symm
  subst hpart
  rw [ParseImageName_of_parse _ _ _ h]

set_option maxRecDepth 100000 in
theorem ParseImageName_digest_witness :
    ParseImageName "repo@sha256:abcd" = some ("repo", "sha256:abcd")
      ∧ ParseImageName "localhost:5000/foo/bar@sha256:bc88"
          = some ("localhost:5000/foo/bar", "sha256:bc88") :=
  ⟨ParseImageName_digest "repo" "sha256:abcd" (by decide) (by decide),
   ParseImageName_digest "localhost:5000/foo/bar" "sha256:bc88" (by decide) (by decide)⟩

/-- C17 (as stated) fails: on `repo@sha256:ab@cd` the tag returned is `sha256:ab`, the
text up to the second `@`, not the whole text `sha256:ab@cd` after the first `@`; on
`repo@` the text after the `@` is empty and the tag returned is "latest". -/
theorem ParseImageName_digest_counterexample :
    ParseImageName "repo@sha256:ab@cd" = some ("repo", "sha256:ab")
      ∧ ParseImageName "repo@sha256:ab@cd" ≠ some ("repo", "sha256:ab@cd")
      ∧ ParseImageName "repo@" = some ("repo", "latest")
      ∧ ParseImageName "repo@" ≠ some ("repo", "") := by
  decide

/-- C18: for every input, `ParseImageName` returns, with the repository of
`parseRepositoryTag`, a tag that is not empty, and that tag is "latest" exactly when
`parseRepositoryTag` returned the empty tag or the tag "latest". -/
theorem ParseImageName_tag_nonempty (image : String) :
    ∃ repo t tag, parseRepositoryTag image = some (repo, t)
      ∧ ParseImageName image = some (repo, tag)
      ∧ tag ≠ ""
      ∧ (tag = "latest" ↔ (t = "" ∨ t = "latest")) := by
  obtain ⟨repo, t, h⟩ := parseRepositoryTag_some image
  refine ⟨repo, t, _, h, ParseImageName_of_parse _ _ _ h, ?_, ?_⟩
  · by_cases ht : t = ""
    · rw [if_pos ht]
      decide
    · rw [if_neg ht]
      exact ht
  · by_cases ht : t = ""
    · rw [if_pos ht]
      exact ⟨fun _ => Or.inl ht, fun _ => rfl⟩
    · rw [if_neg ht]
      exact ⟨fun h' => Or.inr h', fun h' => h'.resolve_left ht⟩

/-- C20: `parseRepositoryTag` returns on every input: when the input contains `@`
(`Index` is not negative) the split at `@` has the elements 0 and 1; when it does not
and contains `:`, the slices `repos[n+1:]` and `repos[:n]` at the last colon are within
bounds. -/
theorem parseRepositoryTag_total (repos : String) :
    (Index repos.data '@' ≥ 0 →
        ∃ part0 part1, (Split repos.data '@').get? 0 = some part0
          ∧ (Split repos.data '@').get? 1 = some part1)
      ∧ (¬ (LastIndex repos.data ':' < 0) →
        (slice repos.data (LastIndex repos.data ':' + 1) repos.data.length).isSome = true
          ∧ (slice repos.data 0 (LastIndex repos.data ':')).isSome = true)
      ∧ (parseRepositoryTag repos).isSome = true := by
  refine ⟨?_, ?_, ?_⟩
  · intro hge
    have hat : '@' ∈ repos.data := by
      by_contra hn
      have := (Index_neg_iff repos.data '@').mpr hn
      omega
    obtain ⟨a, b, hs, ha⟩ := exists_first repos.data '@' hat
    obtain ⟨part, parts, -, hsplit, -⟩ := parseRepositoryTag_at repos a b hs ha
    exact ⟨a, part, by rw [hsplit]; rfl, by rw [hsplit]; rfl⟩
  · intro hge
    have hcolon : ':' ∈ repos.data := by
      by_contra hn
      exact hge ((LastIndex_neg_iff repos.data ':').mpr hn)
    obtain ⟨a, b, hs, hb⟩ := exists_last repos.data ':' hcolon
    have hn : LastIndex repos.data ':' = (a.length : Int) := by
      rw [hs]
      exact LastIndex_append a b ':' hb
    rw [hn]
    constructor
    · rw [hs, slice_after a b ':']
      rfl
    · rw [hs, slice_before a b ':']
      rfl
  · obtain ⟨repo, tag, h⟩ := parseRepositoryTag_some repos
    rw [h]
    rfl

theorem eq_of_data_sep (image : String) (a b : List Char) (sep : String) (c : Char)
    (hsep : sep.data = [c]) (hs : image.data = a ++ c :: b) :
    image = String.mk a ++ sep ++ String.mk b := by
  apply String.ext
  rw [data_append_sep (String.mk a) (String.mk b) sep c hsep]
  exact hs

/-- C19: for every image with at most one `@` that ends neither in `:` nor in `@`, when
`ParseImageName` returns `(repo, tag)` the image is `repo`, `repo:tag` or `repo@tag`. -/
theorem ParseImageName_lossless (image repo tag : String)
    (hat : image.data.count '@' ≤ 1)
    (hcolon : image.data.getLast? ≠ some ':') (hlast : image.data.getLast? ≠ some '@')
    (h : ParseImageName image = some (repo, tag)) :
    image = repo ∨ image = repo ++ ":" ++ tag ∨ image = repo ++ "@" ++ tag := by
  by_cases hmem : '@' ∈ image.data
  · obtain ⟨a, b, hs, ha⟩ := exists_first image.data '@' hmem
    have hb : '@' ∉ b := by
      rw [hs, List.count_append, List.count_cons_self] at hat
      exact List.count_eq_zero.mp (by omega)
    have hbne : b ≠ [] := by
      intro hb0
      rw [hs, hb0] at hlast
      simp at hlast
    obtain ⟨part, parts, hsplit, -, hp⟩ := parseRepositoryTag_at image a b hs ha
    rw [Split_of_not_mem b '@' hb] at hsplit
    have hpart : part = b := (List.cons.inj hsplit).1.symm
    subst hpart
    have hne : ¬ (String.mk part = "") := fun e => hbne (congrArg String.data e)
    rw [ParseImageName_of_parse _ _ _ hp, if_neg hne] at h
    obtain ⟨hr, ht⟩ := Prod.mk.inj (Option.some.inj h)
    subst hr
    subst ht
    exact Or.inr (Or.inr (eq_of_data_sep image a part "@" '@' rfl hs))
  · by_cases hc : ':' ∈ image.data
    · obtain ⟨a, b, hs, hb⟩ := exists_last image.data ':' hc
      have hp := parseRepositoryTag_colon image a b hs hmem hb
      by_cases hsl : '/' ∈ b
      · rw [if_pos hsl] at hp
        rw [ParseImageName_of_parse _ _ _ hp] at h
        exact Or.inl (Prod.mk.inj (Option.some.inj h)).1
      · have hbne : b ≠ [] := by
          intro hb0
          rw [hs, hb0] at hcolon
          simp at hcolon
        have hne : ¬ (String.mk b = "") := fun e => hbne (congrArg String.data e)
        rw [if_neg hsl] at hp
        rw [ParseImageName_of_parse _ _ _ hp, if_neg hne] at h
        obtain ⟨hr, ht⟩ := Prod.mk.inj (Option.some.inj h)
        subst hr
        subst ht
        exact Or.inr (Or.inl (eq_of_data_sep image a b ":" ':' rfl hs))
    · rw [ParseImageName_of_parse _ _ _ (parseRepositoryTag_plain image hmem hc)] at h
      exact Or.inl (Prod.mk.inj (Option.some.inj h)).1

theorem ParseImageName_lossless_witness :
    ParseImageName "host:5000/repo@sha256:abcd" = some ("host:5000/repo", "sha256:abcd")
      ∧ ("host:5000/repo@sha256:abcd" = "host:5000/repo"
          ∨ "host:5000/repo@sha256:abcd" = "host:5000/repo" ++ ":" ++ "sha256:abcd"
          ∨ "host:5000/repo@sha256:abcd" = "host:5000/repo" ++ "@" ++ "sha256:abcd") :=
  ⟨by decide,
   ParseImageName_lossless "host:5000/repo@sha256:abcd" "host:5000/repo" "sha256:abcd"
     (by decide) (by decide) (by decide) (by decide)⟩

end parsers

end Kubernetes
